import Mathlib

/-!
# restic `mount` command: lifecycle orchestration

A shallow embedding of `src/cmds/restic/cmd_mount.go`.

The Go code is a straight-line sequence of calls into collaborators
(repository, filesystem helpers, the FUSE host library, the process-wide
cleanup registry, the message printers).  Each collaborator call is modelled as

* an `Event` appended to the trace of the run, recording the call and its
  arguments, and
* an answer taken from a `World`, a record of what every collaborator returns.

Every collaborator is called at most once per run of `mount`/`runMount`, so
answers that are functions of the arguments lose no generality.  A Go `error`
result is an `Option Error` (`none` is `nil`); a `(T, error)` result is an
`Except Error T`.  The model covers runs in which every collaborator call
returns (`fs.Serve` and the receive from `c.Ready` block in the real program
until the host library lets them go).
-/

namespace Restic

/-! ## Data model -/

/-- Non-nil Go `error` values.  `Fatal` is the value built by `errors.Fatal`;
every other error comes out of a collaborator and is kept as its text. -/
inductive Error where
  | Fatal (msg : String)
  | other (text : String)
deriving DecidableEq, Repr

/-- MountOptions collects all options for the mount command. -/
structure MountOptions where
  OwnerRoot : Bool
  AllowRoot : Bool
  AllowOther : Bool
  Host : String
  Tags : List String
  Paths : List String
deriving DecidableEq, Repr

/-- GlobalOptions is declared elsewhere in package main; `mount` only forwards
it to `OpenRepository`, so it is an uninterpreted token here. -/
structure GlobalOptions where
  id : Nat
deriving DecidableEq, Repr

/-- The repository handle returned by `OpenRepository`. -/
structure Repository where
  id : Nat
deriving DecidableEq, Repr

/-- The FUSE connection (`*fuse.Conn`) returned by `systemFuse.Mount`. -/
structure Conn where
  id : Nat
deriving DecidableEq, Repr

/-- A filesystem node (`fs.Node`), as produced by `fuse.NewSnapshotsDir`. -/
structure Node where
  id : Nat
deriving DecidableEq, Repr

/-- The values of `systemFuse.MountOption` that `mount` builds. -/
inductive MountOption where
  | ReadOnly
  | FSName (name : String)
  | AllowRoot
  | AllowOther
deriving DecidableEq, Repr

/-- The `fs.Tree` of the host library: an ordered list of named nodes. -/
structure Tree where
  dir : List (String × Node)
deriving DecidableEq, Repr

/-- `Tree.Add` for a single path segment appends one named entry. -/
def Tree.Add (t : Tree) (name : String) (node : Node) : Tree :=
  ⟨t.dir ++ [(name, node)]⟩

/-- `os.ModeDir`, the directory bit of `os.FileMode`. -/
def ModeDir : Nat := 1 <<< 31

/-- The closure that `runMount` hands to `AddCleanupHandler`; its only captured
variable is `mountpoint`. -/
structure CleanupHandler where
  mountpoint : String
deriving DecidableEq, Repr

/-- An argument of a printf-style call. -/
inductive Arg where
  | str (s : String)
  | err (e : Error)
deriving DecidableEq, Repr

/-- One observable step of a run: a call into a collaborator. -/
inductive Event where
  | debugLog (format : String) (args : List Arg)
  | OpenRepository (gopts : GlobalOptions)
  | LoadIndex (repo : Repository)
  | Stat (name : String)
  | Verbosef (format : String) (args : List Arg)
  | Mkdir (name : String) (perm : Nat)
  | Mount (dir : String) (options : List MountOption)
  | Printf (format : String) (args : List Arg)
  | Serve (c : Conn) (root : Tree)
  | Ready (c : Conn)
  | AddCleanupHandler (h : CleanupHandler)
  | Unmount (dir : String)
  | Warnf (format : String) (args : List Arg)
deriving DecidableEq, Repr

/-- What the collaborators answer.  `Cause` and `IsNotExist` are
`errors.Cause` and `os.IsNotExist` on non-nil errors; `MountError` is the
field `c.MountError` as read once `c.Ready` has been received from. -/
structure World where
  OpenRepository : GlobalOptions → Except Error Repository
  LoadIndex : Repository → Option Error
  Stat : String → Option Error
  Cause : Error → Error
  IsNotExist : Error → Bool
  Mkdir : String → Nat → Option Error
  Mount : String → List MountOption → Except Error Conn
  NewSnapshotsDir : Repository → Bool → List String → List String → String → Node
  Serve : Conn → Tree → Option Error
  MountError : Conn → Option Error
  Unmount : String → Option Error

/-- A run: the trace of collaborator calls made, and the value produced. -/
structure Exec (α : Type) where
  trace : List Event
  val : α

/-- A run that makes no call. -/
def Exec.ret {α : Type} (a : α) : Exec α := ⟨[], a⟩

/-- Sequencing of runs: traces are concatenated. -/
def Exec.andThen {α β : Type} (x : Exec α) (f : α → Exec β) : Exec β :=
  ⟨x.trace ++ (f x.val).trace, (f x.val).val⟩

instance : Monad Exec where
  pure := Exec.ret
  bind := Exec.andThen

/-- A single call that returns nothing of interest. -/
def emit (e : Event) : Exec Unit := ⟨[e], ()⟩

/-- A single call together with the collaborator's answer. -/
def call {α : Type} (e : Event) (answer : α) : Exec α := ⟨[e], answer⟩

/-- `errors.Cause(err)`; a nil error has a nil cause. -/
def errorsCause (w : World) : Option Error → Option Error
  | none => none
  | some e => some (w.Cause e)

/-- `os.IsNotExist(err)`; false on a nil error. -/
def osIsNotExist (w : World) : Option Error → Bool
  | none => false
  | some e => w.IsNotExist e

/-! ## The code of `cmd_mount.go` -/

/-- The body of `mount`, between the two debug lines. -/
def mountBody (w : World) (opts : MountOptions) (gopts : GlobalOptions)
    (mountpoint : String) : Exec (Option Error) := do
  let r ← call (.OpenRepository gopts) (w.OpenRepository gopts)
  match r with
  | .error err => pure (some err)
  | .ok repo =>
    let err ← call (.LoadIndex repo) (w.LoadIndex repo)
    match err with
    | some err => pure (some err)
    | none =>
      let statErr ← call (.Stat mountpoint) (w.Stat mountpoint)
      let mkdirErr ←
        if osIsNotExist w (errorsCause w statErr) then do
          emit (.Verbosef "Mountpoint %s doesn't exist, creating it\n" [.str mountpoint])
          call (.Mkdir mountpoint (ModeDir ||| 0o700)) (w.Mkdir mountpoint (ModeDir ||| 0o700))
        else
          pure none
      match mkdirErr with
      | some err => pure (some err)
      | none =>
        let mountOptions := [MountOption.ReadOnly, MountOption.FSName "restic"]
        let mountOptions :=
          if opts.AllowRoot then mountOptions ++ [MountOption.AllowRoot] else mountOptions
        let mountOptions :=
          if opts.AllowOther then mountOptions ++ [MountOption.AllowOther] else mountOptions
        let m ← call (.Mount mountpoint mountOptions) (w.Mount mountpoint mountOptions)
        match m with
        | .error err => pure (some err)
        | .ok c =>
          emit (.Printf "Now serving the repository at %s\n" [.str mountpoint])
          emit (.Printf "Don't forget to umount after quitting!\n" [])
          let root : Tree := ⟨[]⟩
          let root := root.Add "snapshots"
            (w.NewSnapshotsDir repo opts.OwnerRoot opts.Paths opts.Tags opts.Host)
          emit (.debugLog "serving mount at %v" [.str mountpoint])
          let err ← call (.Serve c root) (w.Serve c root)
          match err with
          | some err => pure (some err)
          | none =>
            emit (.Ready c)
            pure (w.MountError c)

/-- The function `mount`: the deferred debug line runs on every return. -/
def mount (w : World) (opts : MountOptions) (gopts : GlobalOptions)
    (mountpoint : String) : Exec (Option Error) := do
  emit (.debugLog "start mount" [])
  let err ← mountBody w opts gopts mountpoint
  emit (.debugLog "finish mount" [])
  pure err

/-- The function `umount`. -/
def umount (w : World) (mountpoint : String) : Exec (Option Error) :=
  call (.Unmount mountpoint) (w.Unmount mountpoint)

/-- The body of the cleanup closure registered by `runMount`. -/
def CleanupHandler.run (w : World) (h : CleanupHandler) : Exec (Option Error) := do
  emit (.debugLog "running umount cleanup handler for mount at %v" [.str h.mountpoint])
  let err ← umount w h.mountpoint
  match err with
  | some e => emit (.Warnf "unable to umount (maybe already umounted?): %v\n" [.err e])
  | none => pure ()
  pure none

/-- The function `runMount`. -/
def runMount (w : World) (opts : MountOptions) (gopts : GlobalOptions)
    (args : List String) : Exec (Option Error) :=
  match args with
  | [] => pure (some (Error.Fatal "wrong number of parameters"))
  | mountpoint :: _ => do
    emit (.AddCleanupHandler ⟨mountpoint⟩)
    mount w opts gopts mountpoint


/-! ## Reading a trace -/

/-- The `systemFuse.Mount` calls of a trace, in order. -/
def mountCalls (tr : List Event) : List (String × List MountOption) :=
  tr.filterMap fun
    | .Mount dir options => some (dir, options)
    | _ => none

/-- The `resticfs.Mkdir` calls of a trace, in order. -/
def mkdirCalls (tr : List Event) : List (String × Nat) :=
  tr.filterMap fun
    | .Mkdir name perm => some (name, perm)
    | _ => none

/-- The `fs.Serve` calls of a trace, in order. -/
def serveCalls (tr : List Event) : List (Conn × Tree) :=
  tr.filterMap fun
    | .Serve c root => some (c, root)
    | _ => none

/-- The handlers passed to `AddCleanupHandler` in a trace, in order. -/
def registered (tr : List Event) : List CleanupHandler :=
  tr.filterMap fun
    | .AddCleanupHandler h => some h
    | _ => none

/-- The `systemFuse.Unmount` calls of a trace, in order. -/
def unmountCalls (tr : List Event) : List String :=
  tr.filterMap fun
    | .Unmount dir => some dir
    | _ => none

/-- The `Warnf` calls of a trace, in order. -/
def warnings (tr : List Event) : List (String × List Arg) :=
  tr.filterMap fun
    | .Warnf format args => some (format, args)
    | _ => none

/-! ## Proof devices: the pieces of `mount` by source line -/

/-- The calls made by the mountpoint check (lines 73-79). -/
def prepTrace (w : World) (mountpoint : String) : List Event :=
  if osIsNotExist w (errorsCause w (w.Stat mountpoint)) then
    [.Stat mountpoint,
     .Verbosef "Mountpoint %s doesn't exist, creating it\n" [.str mountpoint],
     .Mkdir mountpoint (ModeDir ||| 0o700)]
  else [.Stat mountpoint]

/-- The error with which the mountpoint check (lines 73-79) leaves `mount`, if any. -/
def prepResult (w : World) (mountpoint : String) : Option Error :=
  if osIsNotExist w (errorsCause w (w.Stat mountpoint)) then
    w.Mkdir mountpoint (ModeDir ||| 0o700)
  else none

/-- The option list built on lines 81-92. -/
def flagsOf (opts : MountOptions) : List MountOption :=
  [MountOption.ReadOnly, MountOption.FSName "restic"]
    ++ (if opts.AllowRoot then [MountOption.AllowRoot] else [])
    ++ (if opts.AllowOther then [MountOption.AllowOther] else [])

/-- The root tree built on lines 102-103. -/
def rootOf (w : World) (opts : MountOptions) (repo : Repository) : Tree :=
  ⟨[("snapshots", w.NewSnapshotsDir repo opts.OwnerRoot opts.Paths opts.Tags opts.Host)]⟩

/-- The calls of `mount` up to and including the `systemFuse.Mount` call. -/
def upToMount (w : World) (opts : MountOptions) (gopts : GlobalOptions) (mp : String)
    (repo : Repository) : List Event :=
  [.debugLog "start mount" [], .OpenRepository gopts, .LoadIndex repo] ++ prepTrace w mp ++
    [.Mount mp (flagsOf opts)]

/-- The calls of `mount` from the status lines up to and including `fs.Serve`. -/
def serving (w : World) (opts : MountOptions) (mp : String) (repo : Repository) (c : Conn) :
    List Event :=
  [.Printf "Now serving the repository at %s\n" [.str mp],
   .Printf "Don't forget to umount after quitting!\n" [],
   .debugLog "serving mount at %v" [.str mp],
   .Serve c (rootOf w opts repo)]

/-! ## Concrete worlds -/

/-- A world in which every collaborator succeeds and the mountpoint exists. -/
def calm : World where
  OpenRepository := fun gopts => .ok ⟨gopts.id⟩
  LoadIndex := fun _ => none
  Stat := fun _ => none
  Cause := fun e => e
  IsNotExist := fun e => e == .other "no such file or directory"
  Mkdir := fun _ _ => none
  Mount := fun _ _ => .ok ⟨7⟩
  NewSnapshotsDir := fun repo ownerRoot paths tags host =>
    ⟨repo.id + (if ownerRoot then 1 else 0) + 10 * paths.length + 100 * tags.length
      + 1000 * host.length⟩
  Serve := fun _ _ => none
  MountError := fun _ => none
  Unmount := fun _ => none

/-- The mountpoint is busy: the host refuses the mount. -/
def busy : World :=
  { calm with Mount := fun _ _ => .error (.other "device or resource busy") }

/-- The mountpoint cannot be examined: stat fails, but not with "does not exist". -/
def unreadable : World :=
  { calm with Stat := fun _ => some (.other "permission denied") }

/-- The mountpoint does not exist yet. -/
def absent : World :=
  { calm with Stat := fun _ => some (.other "no such file or directory") }

/-- The mountpoint does not exist and cannot be created. -/
def uncreatable : World :=
  { absent with Mkdir := fun _ _ => some (.other "read-only file system") }

/-- The repository cannot be opened. -/
def locked : World :=
  { calm with OpenRepository := fun _ => .error (.other "wrong password") }

/-- The index of the repository cannot be loaded. -/
def unindexed : World :=
  { calm with LoadIndex := fun _ => some (.other "index damaged") }

/-- Serving ends with an error. -/
def broken : World :=
  { calm with Serve := fun _ _ => some (.other "input/output error") }

/-- The mountpoint is not mounted any more when the cleanup handler runs. -/
def gone : World :=
  { calm with Unmount := fun _ => some (.other "not mounted") }

/-- Options with nothing set. -/
def plain : MountOptions := ⟨false, false, false, "", [], []⟩

/-- Options with both access flags and all filters set. -/
def shared : MountOptions := ⟨true, true, true, "nas", ["daily"], ["/home", "/etc"]⟩

/-! ## The paths through `mount` -/

theorem mount_open_fail (w : World) (opts : MountOptions) (gopts : GlobalOptions) (mp : String)
    (e : Error) (h1 : w.OpenRepository gopts = .error e) :
    mount w opts gopts mp =
      ⟨[.debugLog "start mount" [], .OpenRepository gopts, .debugLog "finish mount" []],
        some e⟩ := by
  simp [mount, mountBody, bind, pure, Exec.andThen, Exec.ret, emit, call, h1]

theorem mount_index_fail (w : World) (opts : MountOptions) (gopts : GlobalOptions) (mp : String)
    (repo : Repository) (e : Error) (h1 : w.OpenRepository gopts = .ok repo)
    (h2 : w.LoadIndex repo = some e) :
    mount w opts gopts mp =
      ⟨[.debugLog "start mount" [], .OpenRepository gopts, .LoadIndex repo,
        .debugLog "finish mount" []], some e⟩ := by
  simp [mount, mountBody, bind, pure, Exec.andThen, Exec.ret, emit, call, h1, h2]

theorem mount_prep_fail (w : World) (opts : MountOptions) (gopts : GlobalOptions) (mp : String)
    (repo : Repository) (e : Error) (h1 : w.OpenRepository gopts = .ok repo)
    (h2 : w.LoadIndex repo = none) (h3 : prepResult w mp = some e) :
    mount w opts gopts mp =
      ⟨[.debugLog "start mount" [], .OpenRepository gopts, .LoadIndex repo] ++ prepTrace w mp ++
        [.debugLog "finish mount" []], some e⟩ := by
  unfold prepResult at h3
  unfold prepTrace
  split at h3
  · rename_i h
    simp [mount, mountBody, bind, pure, Exec.andThen, Exec.ret, emit, call, h1, h2, h3, h]
  · simp at h3

theorem mount_mount_fail (w : World) (opts : MountOptions) (gopts : GlobalOptions) (mp : String)
    (repo : Repository) (e : Error) (h1 : w.OpenRepository gopts = .ok repo)
    (h2 : w.LoadIndex repo = none) (h3 : prepResult w mp = none)
    (h4 : w.Mount mp (flagsOf opts) = .error e) :
    mount w opts gopts mp =
      ⟨upToMount w opts gopts mp repo ++ [.debugLog "finish mount" []], some e⟩ := by
  unfold prepResult at h3
  unfold upToMount prepTrace
  unfold flagsOf at *
  split at h3 <;> rename_i h <;>
    cases ha : opts.AllowRoot <;> cases hb : opts.AllowOther <;>
    simp [ha, hb] at h4 <;>
    simp [mount, mountBody, bind, pure, Exec.andThen, Exec.ret, emit, call, h1, h2, h3, h, h4,
      ha, hb]

theorem mount_serve_fail (w : World) (opts : MountOptions) (gopts : GlobalOptions) (mp : String)
    (repo : Repository) (c : Conn) (e : Error) (h1 : w.OpenRepository gopts = .ok repo)
    (h2 : w.LoadIndex repo = none) (h3 : prepResult w mp = none)
    (h4 : w.Mount mp (flagsOf opts) = .ok c) (h5 : w.Serve c (rootOf w opts repo) = some e) :
    mount w opts gopts mp =
      ⟨upToMount w opts gopts mp repo ++ serving w opts mp repo c ++
        [.debugLog "finish mount" []], some e⟩ := by
  unfold prepResult at h3
  unfold upToMount serving prepTrace
  unfold flagsOf rootOf at *
  split at h3 <;> rename_i h <;>
    cases ha : opts.AllowRoot <;> cases hb : opts.AllowOther <;>
    simp [ha, hb] at h4 <;>
    simp [mount, mountBody, bind, pure, Exec.andThen, Exec.ret, emit, call, h1, h2, h3, h, h4,
      h5, ha, hb, Tree.Add]

theorem mount_served (w : World) (opts : MountOptions) (gopts : GlobalOptions) (mp : String)
    (repo : Repository) (c : Conn) (h1 : w.OpenRepository gopts = .ok repo)
    (h2 : w.LoadIndex repo = none) (h3 : prepResult w mp = none)
    (h4 : w.Mount mp (flagsOf opts) = .ok c) (h5 : w.Serve c (rootOf w opts repo) = none) :
    mount w opts gopts mp =
      ⟨upToMount w opts gopts mp repo ++ serving w opts mp repo c ++
        [.Ready c, .debugLog "finish mount" []], w.MountError c⟩ := by
  unfold prepResult at h3
  unfold upToMount serving prepTrace
  unfold flagsOf rootOf at *
  split at h3 <;> rename_i h <;>
    cases ha : opts.AllowRoot <;> cases hb : opts.AllowOther <;>
    simp [ha, hb] at h4 <;>
    simp [mount, mountBody, bind, pure, Exec.andThen, Exec.ret, emit, call, h1, h2, h3, h, h4,
      h5, ha, hb, Tree.Add]

/-- Every run of `mount` follows one of six paths. -/
theorem mount_cases (w : World) (opts : MountOptions) (gopts : GlobalOptions) (mp : String) :
    (∃ e, w.OpenRepository gopts = .error e ∧
      mount w opts gopts mp =
        ⟨[.debugLog "start mount" [], .OpenRepository gopts, .debugLog "finish mount" []],
          some e⟩) ∨
    (∃ repo e, w.OpenRepository gopts = .ok repo ∧ w.LoadIndex repo = some e ∧
      mount w opts gopts mp =
        ⟨[.debugLog "start mount" [], .OpenRepository gopts, .LoadIndex repo,
          .debugLog "finish mount" []], some e⟩) ∨
    (∃ repo e, w.OpenRepository gopts = .ok repo ∧ w.LoadIndex repo = none ∧
      prepResult w mp = some e ∧
      mount w opts gopts mp =
        ⟨[.debugLog "start mount" [], .OpenRepository gopts, .LoadIndex repo] ++
          prepTrace w mp ++ [.debugLog "finish mount" []], some e⟩) ∨
    (∃ repo e, w.OpenRepository gopts = .ok repo ∧ w.LoadIndex repo = none ∧
      prepResult w mp = none ∧ w.Mount mp (flagsOf opts) = .error e ∧
      mount w opts gopts mp =
        ⟨upToMount w opts gopts mp repo ++ [.debugLog "finish mount" []], some e⟩) ∨
    (∃ repo c e, w.OpenRepository gopts = .ok repo ∧ w.LoadIndex repo = none ∧
      prepResult w mp = none ∧ w.Mount mp (flagsOf opts) = .ok c ∧
      w.Serve c (rootOf w opts repo) = some e ∧
      mount w opts gopts mp =
        ⟨upToMount w opts gopts mp repo ++ serving w opts mp repo c ++
          [.debugLog "finish mount" []], some e⟩) ∨
    (∃ repo c, w.OpenRepository gopts = .ok repo ∧ w.LoadIndex repo = none ∧
      prepResult w mp = none ∧ w.Mount mp (flagsOf opts) = .ok c ∧
      w.Serve c (rootOf w opts repo) = none ∧
      mount w opts gopts mp =
        ⟨upToMount w opts gopts mp repo ++ serving w opts mp repo c ++
          [.Ready c, .debugLog "finish mount" []], w.MountError c⟩) := by
  cases h1 : w.OpenRepository gopts with
  | error e => exact Or.inl ⟨e, rfl, mount_open_fail w opts gopts mp e h1⟩
  | ok repo =>
    cases h2 : w.LoadIndex repo with
    | some e => exact Or.inr (Or.inl ⟨repo, e, rfl, h2, mount_index_fail w opts gopts mp repo e h1 h2⟩)
    | none =>
      cases h3 : prepResult w mp with
      | some e =>
        exact Or.inr (Or.inr (Or.inl
          ⟨repo, e, rfl, h2, rfl, mount_prep_fail w opts gopts mp repo e h1 h2 h3⟩))
      | none =>
        cases h4 : w.Mount mp (flagsOf opts) with
        | error e =>
          exact Or.inr (Or.inr (Or.inr (Or.inl
            ⟨repo, e, rfl, h2, rfl, rfl, mount_mount_fail w opts gopts mp repo e h1 h2 h3 h4⟩)))
        | ok c =>
          cases h5 : w.Serve c (rootOf w opts repo) with
          | some e =>
            exact Or.inr (Or.inr (Or.inr (Or.inr (Or.inl
              ⟨repo, c, e, rfl, h2, rfl, rfl, h5,
                mount_serve_fail w opts gopts mp repo c e h1 h2 h3 h4 h5⟩))))
          | none =>
            exact Or.inr (Or.inr (Or.inr (Or.inr (Or.inr
              ⟨repo, c, rfl, h2, rfl, rfl, h5,
                mount_served w opts gopts mp repo c h1 h2 h3 h4 h5⟩))))

theorem runMount_cons (w : World) (opts : MountOptions) (gopts : GlobalOptions)
    (mp : String) (rest : List String) :
    runMount w opts gopts (mp :: rest) =
      ⟨.AddCleanupHandler ⟨mp⟩ :: (mount w opts gopts mp).trace,
        (mount w opts gopts mp).val⟩ := rfl


/-- Once the mountpoint is ready, `mount` calls `systemFuse.Mount` and then
follows one of three paths. -/
theorem mount_after_prep (w : World) (opts : MountOptions) (gopts : GlobalOptions) (mp : String)
    (repo : Repository) (h1 : w.OpenRepository gopts = .ok repo)
    (h2 : w.LoadIndex repo = none) (h3 : prepResult w mp = none) :
    (∃ e, w.Mount mp (flagsOf opts) = .error e ∧
      mount w opts gopts mp =
        ⟨upToMount w opts gopts mp repo ++ [.debugLog "finish mount" []], some e⟩) ∨
    (∃ c e, w.Mount mp (flagsOf opts) = .ok c ∧ w.Serve c (rootOf w opts repo) = some e ∧
      mount w opts gopts mp =
        ⟨upToMount w opts gopts mp repo ++ serving w opts mp repo c ++
          [.debugLog "finish mount" []], some e⟩) ∨
    (∃ c, w.Mount mp (flagsOf opts) = .ok c ∧ w.Serve c (rootOf w opts repo) = none ∧
      mount w opts gopts mp =
        ⟨upToMount w opts gopts mp repo ++ serving w opts mp repo c ++
          [.Ready c, .debugLog "finish mount" []], w.MountError c⟩) := by
  cases h4 : w.Mount mp (flagsOf opts) with
  | error e => exact Or.inl ⟨e, rfl, mount_mount_fail w opts gopts mp repo e h1 h2 h3 h4⟩
  | ok c =>
    cases h5 : w.Serve c (rootOf w opts repo) with
    | some e =>
      exact Or.inr (Or.inl ⟨c, e, rfl, h5, mount_serve_fail w opts gopts mp repo c e h1 h2 h3 h4 h5⟩)
    | none =>
      exact Or.inr (Or.inr ⟨c, rfl, h5, mount_served w opts gopts mp repo c h1 h2 h3 h4 h5⟩)

theorem mem_prepTrace (w : World) (mp : String) (ev : Event) (h : ev ∈ prepTrace w mp) :
    ev = .Stat mp ∨
      ev = .Verbosef "Mountpoint %s doesn't exist, creating it\n" [.str mp] ∨
      ev = .Mkdir mp (ModeDir ||| 0o700) := by
  unfold prepTrace at h
  split at h <;> simp at h <;> tauto

/-- A `systemFuse.Mount` call in a run of `mount` is the one on the mountpoint
with the options of lines 81-92, and everything before it succeeded. -/
theorem mount_call_inv (w : World) (opts : MountOptions) (gopts : GlobalOptions) (mp : String)
    (dir : String) (options : List MountOption)
    (h : Event.Mount dir options ∈ (mount w opts gopts mp).trace) :
    dir = mp ∧ options = flagsOf opts ∧
      ∃ repo, w.OpenRepository gopts = .ok repo ∧ w.LoadIndex repo = none ∧
        prepResult w mp = none := by
  rcases mount_cases w opts gopts mp with ⟨e, _, heq⟩ | ⟨repo, e, _, _, heq⟩ |
    ⟨repo, e, _, _, _, heq⟩ | ⟨repo, e, h1, h2, h3, _, heq⟩ | ⟨repo, c, e, h1, h2, h3, _, _, heq⟩ |
    ⟨repo, c, h1, h2, h3, _, _, heq⟩
  · rw [heq] at h; simp at h
  · rw [heq] at h; simp at h
  · rw [heq] at h
    simp at h
    have := mem_prepTrace w mp _ h
    simp at this
  · rw [heq] at h
    simp [upToMount, serving] at h
    rcases h with h | h
    · have := mem_prepTrace w mp _ h
      simp at this
    · exact ⟨h.1, h.2, repo, h1, h2, h3⟩
  · rw [heq] at h
    simp [upToMount, serving] at h
    rcases h with h | h
    · have := mem_prepTrace w mp _ h
      simp at this
    · exact ⟨h.1, h.2, repo, h1, h2, h3⟩
  · rw [heq] at h
    simp [upToMount, serving] at h
    rcases h with h | h
    · have := mem_prepTrace w mp _ h
      simp at this
    · exact ⟨h.1, h.2, repo, h1, h2, h3⟩

theorem mountCalls_prepTrace (w : World) (mp : String) : mountCalls (prepTrace w mp) = [] := by
  unfold prepTrace mountCalls
  split <;> simp

theorem serveCalls_prepTrace (w : World) (mp : String) : serveCalls (prepTrace w mp) = [] := by
  unfold prepTrace serveCalls
  split <;> simp

theorem mountCalls_upToMount (w : World) (opts : MountOptions) (gopts : GlobalOptions)
    (mp : String) (repo : Repository) :
    mountCalls (upToMount w opts gopts mp repo) = [(mp, flagsOf opts)] := by
  have := mountCalls_prepTrace w mp
  unfold mountCalls at this ⊢
  simp [upToMount, List.filterMap_append, this]

theorem serveCalls_upToMount (w : World) (opts : MountOptions) (gopts : GlobalOptions)
    (mp : String) (repo : Repository) :
    serveCalls (upToMount w opts gopts mp repo) = [] := by
  have := serveCalls_prepTrace w mp
  unfold serveCalls at this ⊢
  simp [upToMount, List.filterMap_append, this]

theorem mountCalls_append (a b : List Event) : mountCalls (a ++ b) = mountCalls a ++ mountCalls b := by
  simp [mountCalls, List.filterMap_append]

theorem serveCalls_append (a b : List Event) : serveCalls (a ++ b) = serveCalls a ++ serveCalls b := by
  simp [serveCalls, List.filterMap_append]

/-- Whenever `mount` calls `systemFuse.Mount`, it does so exactly once. -/
theorem mountCalls_of_reached (w : World) (opts : MountOptions) (gopts : GlobalOptions)
    (mp : String) (repo : Repository) (h1 : w.OpenRepository gopts = .ok repo)
    (h2 : w.LoadIndex repo = none) (h3 : prepResult w mp = none) :
    mountCalls (mount w opts gopts mp).trace = [(mp, flagsOf opts)] := by
  rcases mount_after_prep w opts gopts mp repo h1 h2 h3 with ⟨e, _, heq⟩ | ⟨c, e, _, _, heq⟩ |
    ⟨c, _, _, heq⟩ <;>
  · rw [heq]
    simp only [mountCalls_append, mountCalls_upToMount]
    simp [mountCalls, serving]

theorem flagsOf_congr (opts opts' : MountOptions) (ha : opts'.AllowRoot = opts.AllowRoot)
    (hb : opts'.AllowOther = opts.AllowOther) : flagsOf opts' = flagsOf opts := by
  simp [flagsOf, ha, hb]

theorem registered_prepTrace (w : World) (mp : String) : registered (prepTrace w mp) = [] := by
  unfold prepTrace registered
  split <;> simp

theorem registered_upToMount (w : World) (opts : MountOptions) (gopts : GlobalOptions)
    (mp : String) (repo : Repository) :
    registered (upToMount w opts gopts mp repo) = [] := by
  have := registered_prepTrace w mp
  unfold registered at this ⊢
  simp [upToMount, List.filterMap_append, this]

theorem registered_append (a b : List Event) :
    registered (a ++ b) = registered a ++ registered b := by
  simp [registered, List.filterMap_append]

/-- No cleanup handler is registered inside `mount`. -/
theorem registered_mount (w : World) (opts : MountOptions) (gopts : GlobalOptions)
    (mp : String) : registered (mount w opts gopts mp).trace = [] := by
  rcases mount_cases w opts gopts mp with ⟨e, _, heq⟩ | ⟨repo, e, _, _, heq⟩ |
    ⟨repo, e, _, _, _, heq⟩ | ⟨repo, e, _, _, _, _, heq⟩ | ⟨repo, c, e, _, _, _, _, _, heq⟩ |
    ⟨repo, c, _, _, _, _, _, heq⟩ <;>
  · rw [heq]
    simp only [registered_append, registered_upToMount, registered_prepTrace]
    simp [registered, serving]

/-- Once the repository is open and indexed, the run of `mount` starts with the
mountpoint check; nothing after the check creates a directory or prints the
"creating" message. -/
theorem mount_trace_shape (w : World) (opts : MountOptions) (gopts : GlobalOptions)
    (mp : String) (repo : Repository) (h1 : w.OpenRepository gopts = .ok repo)
    (h2 : w.LoadIndex repo = none) :
    ∃ post, (mount w opts gopts mp).trace =
        [.debugLog "start mount" [], .OpenRepository gopts, .LoadIndex repo] ++
          prepTrace w mp ++ post ∧
      mkdirCalls post = [] ∧ (∀ f a, Event.Verbosef f a ∉ post) ∧
      (prepResult w mp = none →
        ∃ rest, post = Event.Mount mp (flagsOf opts) :: rest ∧ mountCalls rest = []) := by
  rcases mount_cases w opts gopts mp with ⟨e, h1', heq⟩ | ⟨repo', e, h1', h2', heq⟩ |
    ⟨repo', e, h1', _, h3, heq⟩ | ⟨repo', e, h1', _, h3, _, heq⟩ |
    ⟨repo', c, e, h1', _, h3, _, _, heq⟩ | ⟨repo', c, h1', _, h3, _, _, heq⟩
  · rw [h1] at h1'; cases h1'
  · rw [h1] at h1'; cases h1'; rw [h2] at h2'; cases h2'
  · rw [h1] at h1'; cases h1'
    exact ⟨[.debugLog "finish mount" []], by rw [heq], by simp [mkdirCalls], by simp,
      by rw [h3]; intro h; cases h⟩
  · rw [h1] at h1'; cases h1'
    exact ⟨[.Mount mp (flagsOf opts), .debugLog "finish mount" []],
      by rw [heq]; simp [upToMount], by simp [mkdirCalls], by simp,
      fun _ => ⟨_, rfl, by simp [mountCalls]⟩⟩
  · rw [h1] at h1'; cases h1'
    exact ⟨.Mount mp (flagsOf opts) :: (serving w opts mp repo c ++ [.debugLog "finish mount" []]),
      by rw [heq]; simp [upToMount], by simp [mkdirCalls, serving], by simp [serving],
      fun _ => ⟨_, rfl, by simp [mountCalls, serving]⟩⟩
  · rw [h1] at h1'; cases h1'
    exact ⟨.Mount mp (flagsOf opts) ::
        (serving w opts mp repo c ++ [.Ready c, .debugLog "finish mount" []]),
      by rw [heq]; simp [upToMount], by simp [mkdirCalls, serving], by simp [serving],
      fun _ => ⟨_, rfl, by simp [mountCalls, serving]⟩⟩

/-- The run of the cleanup closure, written out. -/
theorem cleanup_run (w : World) (h : CleanupHandler) :
    h.run w =
      ⟨[.debugLog "running umount cleanup handler for mount at %v" [.str h.mountpoint],
        .Unmount h.mountpoint] ++
        (match w.Unmount h.mountpoint with
          | some e => [.Warnf "unable to umount (maybe already umounted?): %v\n" [.err e]]
          | none => []), none⟩ := by
  cases hu : w.Unmount h.mountpoint <;>
    simp [CleanupHandler.run, umount, bind, pure, Exec.andThen, Exec.ret, emit, call, hu]

/-- A `fs.Serve` call in a run of `mount` is made on the session returned by the
host Mount call, with the root tree of lines 102-103. -/
theorem serve_call_inv (w : World) (opts : MountOptions) (gopts : GlobalOptions) (mp : String)
    (c : Conn) (root : Tree) (h : Event.Serve c root ∈ (mount w opts gopts mp).trace) :
    ∃ repo, w.OpenRepository gopts = .ok repo ∧ w.LoadIndex repo = none ∧
      prepResult w mp = none ∧ w.Mount mp (flagsOf opts) = .ok c ∧ root = rootOf w opts repo := by
  rcases mount_cases w opts gopts mp with ⟨e, _, heq⟩ | ⟨repo, e, _, _, heq⟩ |
    ⟨repo, e, _, _, _, heq⟩ | ⟨repo, e, h1, h2, h3, _, heq⟩ | ⟨repo, c', e, h1, h2, h3, h4, _, heq⟩ |
    ⟨repo, c', h1, h2, h3, h4, _, heq⟩
  · rw [heq] at h; simp at h
  · rw [heq] at h; simp at h
  · rw [heq] at h
    simp at h
    have := mem_prepTrace w mp _ h
    simp at this
  · rw [heq] at h
    simp [upToMount] at h
    have := mem_prepTrace w mp _ h
    simp at this
  · rw [heq] at h
    simp [upToMount, serving] at h
    rcases h with h | h
    · have := mem_prepTrace w mp _ h
      simp at this
    · obtain ⟨hc, hr⟩ := h
      subst hc hr
      exact ⟨repo, h1, h2, h3, h4, rfl⟩
  · rw [heq] at h
    simp [upToMount, serving] at h
    rcases h with h | h
    · have := mem_prepTrace w mp _ h
      simp at this
    · obtain ⟨hc, hr⟩ := h
      subst hc hr
      exact ⟨repo, h1, h2, h3, h4, rfl⟩

/-- The serving part of a run that got past the host Mount call. -/
theorem mount_after_mount (w : World) (opts : MountOptions) (gopts : GlobalOptions)
    (mp : String) (repo : Repository) (c : Conn) (h1 : w.OpenRepository gopts = .ok repo)
    (h2 : w.LoadIndex repo = none) (h3 : prepResult w mp = none)
    (h4 : w.Mount mp (flagsOf opts) = .ok c) :
    serveCalls (mount w opts gopts mp).trace = [(c, rootOf w opts repo)] ∧
    (∀ e, w.Serve c (rootOf w opts repo) = some e →
      mount w opts gopts mp =
        ⟨upToMount w opts gopts mp repo ++ serving w opts mp repo c ++
          [.debugLog "finish mount" []], some e⟩) ∧
    (w.Serve c (rootOf w opts repo) = none →
      mount w opts gopts mp =
        ⟨upToMount w opts gopts mp repo ++ serving w opts mp repo c ++
          [.Ready c, .debugLog "finish mount" []], w.MountError c⟩) := by
  rcases mount_after_prep w opts gopts mp repo h1 h2 h3 with ⟨e', h4', heq⟩ |
    ⟨c', e', h4', h5, heq⟩ | ⟨c', h4', h5, heq⟩
  · rw [h4] at h4'; cases h4'
  · rw [h4] at h4'; cases h4'
    refine ⟨?_, ?_, ?_⟩
    · rw [heq]
      simp only [serveCalls_append, serveCalls_upToMount]
      simp [serveCalls, serving]
    · intro e he
      rw [h5] at he; cases he
      exact heq
    · intro he
      rw [h5] at he; cases he
  · rw [h4] at h4'; cases h4'
    refine ⟨?_, ?_, ?_⟩
    · rw [heq]
      simp only [serveCalls_append, serveCalls_upToMount]
      simp [serveCalls, serving]
    · intro e he
      rw [h5] at he; cases he
    · intro _
      exact heq

theorem ready_not_mem_upToMount (w : World) (opts : MountOptions) (gopts : GlobalOptions)
    (mp : String) (repo : Repository) (c : Conn) :
    Event.Ready c ∉ upToMount w opts gopts mp repo := by
  intro h
  simp [upToMount] at h
  have := mem_prepTrace w mp _ h
  simp at this

theorem printf_not_mem_upToMount (w : World) (opts : MountOptions) (gopts : GlobalOptions)
    (mp : String) (repo : Repository) (f : String) (a : List Arg) :
    Event.Printf f a ∉ upToMount w opts gopts mp repo := by
  intro h
  simp [upToMount] at h
  have := mem_prepTrace w mp _ h
  simp at this

theorem serve_not_mem_upToMount (w : World) (opts : MountOptions) (gopts : GlobalOptions)
    (mp : String) (repo : Repository) (c : Conn) (root : Tree) :
    Event.Serve c root ∉ upToMount w opts gopts mp repo := by
  intro h
  simp [upToMount] at h
  have := mem_prepTrace w mp _ h
  simp at this

/-! ## The claims -/

/-- C1. Whenever `mount` reaches the host Mount call, the call is made on the
mountpoint, it is the only Mount call of the run, and its option list is exactly
ReadOnly, FSName "restic", then AllowRoot iff `opts.AllowRoot`, then AllowOther
iff `opts.AllowOther`.  With both options off the list is the two fixed
entries; each optional entry is present iff its own option is set; and options
that agree on AllowRoot and AllowOther lead to the same call, whatever their
OwnerRoot, Host, Tags and Paths. -/
theorem mount_options_exact (w : World) (opts : MountOptions) (gopts : GlobalOptions)
    (mp dir : String) (options : List MountOption)
    (h : Event.Mount dir options ∈ (mount w opts gopts mp).trace) :
    dir = mp ∧
    options =
      [MountOption.ReadOnly, MountOption.FSName "restic"]
        ++ (if opts.AllowRoot then [MountOption.AllowRoot] else [])
        ++ (if opts.AllowOther then [MountOption.AllowOther] else []) ∧
    mountCalls (mount w opts gopts mp).trace = [(dir, options)] ∧
    (opts.AllowRoot = false → opts.AllowOther = false →
      options = [MountOption.ReadOnly, MountOption.FSName "restic"]) ∧
    (MountOption.AllowRoot ∈ options ↔ opts.AllowRoot = true) ∧
    (MountOption.AllowOther ∈ options ↔ opts.AllowOther = true) ∧
    (∀ opts' : MountOptions, opts'.AllowRoot = opts.AllowRoot →
      opts'.AllowOther = opts.AllowOther →
      mountCalls (mount w opts' gopts mp).trace = [(dir, options)]) := by
  obtain ⟨hdir, hopt, repo, h1, h2, h3⟩ := mount_call_inv w opts gopts mp dir options h
  subst hdir
  refine ⟨rfl, hopt, ?_, ?_, ?_, ?_, ?_⟩
  · rw [hopt]; exact mountCalls_of_reached w opts gopts dir repo h1 h2 h3
  · intro ha hb
    simp [hopt, flagsOf, ha, hb]
  · rw [hopt]
    cases ha : opts.AllowRoot <;> cases hb : opts.AllowOther <;> simp [flagsOf, ha, hb]
  · rw [hopt]
    cases ha : opts.AllowRoot <;> cases hb : opts.AllowOther <;> simp [flagsOf, ha, hb]
  · intro opts' ha hb
    rw [hopt, ← flagsOf_congr opts opts' ha hb]
    exact mountCalls_of_reached w opts' gopts dir repo h1 h2 h3

/-- C1, at two concrete runs: both access flags set, and none set. -/
theorem mount_options_exact_witness :
    (Event.Mount "/mnt" [MountOption.ReadOnly, MountOption.FSName "restic",
        MountOption.AllowRoot, MountOption.AllowOther] ∈
        (mount calm shared ⟨1⟩ "/mnt").trace ∧
      mountCalls (mount calm shared ⟨1⟩ "/mnt").trace =
        [("/mnt", [MountOption.ReadOnly, MountOption.FSName "restic", MountOption.AllowRoot,
          MountOption.AllowOther])]) ∧
    (Event.Mount "/mnt" [MountOption.ReadOnly, MountOption.FSName "restic"] ∈
        (mount calm plain ⟨1⟩ "/mnt").trace ∧
      mountCalls (mount calm plain ⟨1⟩ "/mnt").trace =
        [("/mnt", [MountOption.ReadOnly, MountOption.FSName "restic"])]) :=
  ⟨⟨by decide,
    (mount_options_exact calm shared ⟨1⟩ "/mnt" "/mnt"
      [MountOption.ReadOnly, MountOption.FSName "restic", MountOption.AllowRoot,
        MountOption.AllowOther] (by decide)).2.2.1⟩,
   ⟨by decide,
    (mount_options_exact calm plain ⟨1⟩ "/mnt" "/mnt"
      [MountOption.ReadOnly, MountOption.FSName "restic"] (by decide)).2.2.1⟩⟩

/-- C2, as stated, fails: with a busy mountpoint the host Mount call fails and
`runMount` returns that error, yet the cleanup handler for "/mnt" has been
registered during the invocation. -/
theorem runMount_failed_mount_unregistered_counterexample :
    (Event.Mount "/mnt" [MountOption.ReadOnly, MountOption.FSName "restic"] ∈
        (runMount busy plain ⟨1⟩ ["/mnt"]).trace ∧
      busy.Mount "/mnt" [MountOption.ReadOnly, MountOption.FSName "restic"] =
        .error (.other "device or resource busy")) ∧
    ¬ ((runMount busy plain ⟨1⟩ ["/mnt"]).val = some (.other "device or resource busy") ∧
        registered (runMount busy plain ⟨1⟩ ["/mnt"]).trace = []) :=
  ⟨⟨by decide, rfl⟩, by decide⟩

/-- C2, amended. When `runMount` is called with at least one argument and the
host Mount call fails with error `e`, `runMount` returns `e`, and exactly one
cleanup handler, bound to the first argument, has been registered during the
invocation: the registration is the first step of the run, made before `mount`
is entered. -/
theorem runMount_failed_mount (w : World) (opts : MountOptions) (gopts : GlobalOptions)
    (mountpoint : String) (rest : List String) (dir : String) (options : List MountOption)
    (e : Error)
    (h : Event.Mount dir options ∈ (runMount w opts gopts (mountpoint :: rest)).trace)
    (hfail : w.Mount dir options = .error e) :
    (runMount w opts gopts (mountpoint :: rest)).val = some e ∧
    registered (runMount w opts gopts (mountpoint :: rest)).trace = [⟨mountpoint⟩] ∧
    (runMount w opts gopts (mountpoint :: rest)).trace =
      .AddCleanupHandler ⟨mountpoint⟩ :: (mount w opts gopts mountpoint).trace := by
  rw [runMount_cons] at h ⊢
  simp only [List.mem_cons, reduceCtorEq, false_or] at h
  obtain ⟨hdir, hopt, repo, h1, h2, h3⟩ := mount_call_inv w opts gopts mountpoint dir options h
  subst hdir hopt
  rcases mount_after_prep w opts gopts dir repo h1 h2 h3 with ⟨e', h4, heq⟩ | ⟨c, e', h4, _, heq⟩ |
    ⟨c, h4, _, heq⟩
  · rw [hfail] at h4
    cases h4
    refine ⟨by rw [heq], ?_, rfl⟩
    rw [heq]
    have := registered_upToMount w opts gopts dir repo
    simp [registered, List.filterMap_append] at this ⊢
    exact this
  · rw [hfail] at h4; cases h4
  · rw [hfail] at h4; cases h4

/-- C2 amended, at a concrete run: the mountpoint is busy. -/
theorem runMount_failed_mount_witness :
    Event.Mount "/mnt" [MountOption.ReadOnly, MountOption.FSName "restic"] ∈
        (runMount busy plain ⟨1⟩ ["/mnt"]).trace ∧
    (runMount busy plain ⟨1⟩ ["/mnt"]).val = some (.other "device or resource busy") ∧
    registered (runMount busy plain ⟨1⟩ ["/mnt"]).trace = [⟨"/mnt"⟩] :=
  ⟨by decide,
   (runMount_failed_mount busy plain ⟨1⟩ "/mnt" [] "/mnt"
      [MountOption.ReadOnly, MountOption.FSName "restic"] (.other "device or resource busy")
      (by decide) rfl).1,
   (runMount_failed_mount busy plain ⟨1⟩ "/mnt" [] "/mnt"
      [MountOption.ReadOnly, MountOption.FSName "restic"] (.other "device or resource busy")
      (by decide) rfl).2.1⟩


/-- C3. When `runMount` is called with at least one argument and the host Mount
call succeeds with session `c`, exactly one cleanup handler is registered during
the invocation; its registration is the first step of the run and the single
`fs.Serve` call comes after it; the Mount call was made on the first argument;
and the handler, whenever it is run, makes exactly one unmount call, on that
same path. -/
theorem runMount_registers_before_serve (w : World) (opts : MountOptions)
    (gopts : GlobalOptions) (mountpoint : String) (rest : List String) (dir : String)
    (options : List MountOption) (c : Conn)
    (h : Event.Mount dir options ∈ (runMount w opts gopts (mountpoint :: rest)).trace)
    (hok : w.Mount dir options = .ok c) :
    dir = mountpoint ∧
    (∃ handler : CleanupHandler,
      registered (runMount w opts gopts (mountpoint :: rest)).trace = [handler] ∧
      (∃ post root, (runMount w opts gopts (mountpoint :: rest)).trace =
          .AddCleanupHandler handler :: post ∧
        serveCalls post = [(c, root)] ∧ Event.Serve c root ∈ post) ∧
      ∀ w' : World, unmountCalls (handler.run w').trace = [dir]) := by
  rw [runMount_cons] at h ⊢
  simp only [List.mem_cons, reduceCtorEq, false_or] at h
  obtain ⟨hdir, hopt, repo, h1, h2, h3⟩ := mount_call_inv w opts gopts mountpoint dir options h
  subst hdir hopt
  refine ⟨rfl, ⟨dir⟩, ?_, ?_, ?_⟩
  · have := registered_mount w opts gopts dir
    simp [registered] at this ⊢
    exact this
  · refine ⟨(mount w opts gopts dir).trace, rootOf w opts repo, rfl, ?_⟩
    rcases mount_after_prep w opts gopts dir repo h1 h2 h3 with ⟨e', h4, heq⟩ |
      ⟨c', e', h4, _, heq⟩ | ⟨c', h4, _, heq⟩
    · rw [hok] at h4; cases h4
    · rw [hok] at h4; cases h4
      rw [heq]
      simp only [serveCalls_append, serveCalls_upToMount]
      simp [serveCalls, serving]
    · rw [hok] at h4; cases h4
      rw [heq]
      simp only [serveCalls_append, serveCalls_upToMount]
      simp [serveCalls, serving]
  · intro w'
    rw [cleanup_run]
    cases w'.Unmount dir <;> simp [unmountCalls]

/-- C3, at a concrete run in which the mount succeeds. -/
theorem runMount_registers_before_serve_witness :
    Event.Mount "/mnt" [MountOption.ReadOnly, MountOption.FSName "restic"] ∈
        (runMount calm plain ⟨1⟩ ["/mnt", "extra"]).trace ∧
    ∃ handler : CleanupHandler,
      registered (runMount calm plain ⟨1⟩ ["/mnt", "extra"]).trace = [handler] ∧
      (∃ post root, (runMount calm plain ⟨1⟩ ["/mnt", "extra"]).trace =
          .AddCleanupHandler handler :: post ∧
        serveCalls post = [(⟨7⟩, root)] ∧ Event.Serve ⟨7⟩ root ∈ post) ∧
      ∀ w' : World, unmountCalls (handler.run w').trace = ["/mnt"] :=
  ⟨by decide,
   (runMount_registers_before_serve calm plain ⟨1⟩ "/mnt" ["extra"] "/mnt"
      [MountOption.ReadOnly, MountOption.FSName "restic"] ⟨7⟩ (by decide) rfl).2⟩

/-- C4, as stated, fails: when the stat of the mountpoint fails with
"permission denied" (not a "does not exist" error), `mount` does not return the
stat error; it goes on to the host Mount call and, everything else succeeding,
returns nil. -/
theorem mount_stat_error_propagates_counterexample :
    (unreadable.OpenRepository ⟨1⟩ = .ok ⟨1⟩ ∧ unreadable.LoadIndex ⟨1⟩ = none ∧
      unreadable.Stat "/mnt" = some (.other "permission denied") ∧
      osIsNotExist unreadable (errorsCause unreadable (some (.other "permission denied")))
        = false) ∧
    (mount unreadable plain ⟨1⟩ "/mnt").val = none ∧
    mountCalls (mount unreadable plain ⟨1⟩ "/mnt").trace =
      [("/mnt", [MountOption.ReadOnly, MountOption.FSName "restic"])] ∧
    ¬ ((mount unreadable plain ⟨1⟩ "/mnt").val = some (.other "permission denied") ∧
        mkdirCalls (mount unreadable plain ⟨1⟩ "/mnt").trace = [] ∧
        mountCalls (mount unreadable plain ⟨1⟩ "/mnt").trace = []) :=
  ⟨⟨rfl, rfl, rfl, rfl⟩, by decide, by decide, by decide⟩

/-- C4, amended. When the repository was opened and indexed and the stat of the
mountpoint fails with an error that is not a "does not exist" error, `mount`
attempts no directory creation and prints no "creating" message, drops the stat
error and carries on exactly as if the stat had succeeded: it makes the host
Mount call on the mountpoint, and its calls and its result are those of the run
in which the stat succeeds. -/
theorem mount_stat_error_ignored (w : World) (opts : MountOptions) (gopts : GlobalOptions)
    (mp : String) (repo : Repository) (e : Error)
    (h1 : w.OpenRepository gopts = .ok repo) (h2 : w.LoadIndex repo = none)
    (hstat : w.Stat mp = some e)
    (hne : osIsNotExist w (errorsCause w (some e)) = false) :
    mkdirCalls (mount w opts gopts mp).trace = [] ∧
    (∀ f a, Event.Verbosef f a ∉ (mount w opts gopts mp).trace) ∧
    mountCalls (mount w opts gopts mp).trace =
      [(mp, [MountOption.ReadOnly, MountOption.FSName "restic"]
        ++ (if opts.AllowRoot then [MountOption.AllowRoot] else [])
        ++ (if opts.AllowOther then [MountOption.AllowOther] else []))] ∧
    mount w opts gopts mp = mount { w with Stat := fun _ => none } opts gopts mp := by
  have hprep : prepTrace w mp = [.Stat mp] := by simp [prepTrace, hstat, hne]
  have hres : prepResult w mp = none := by simp [prepResult, hstat, hne]
  obtain ⟨post, htr, hmk, hverb, hmount⟩ := mount_trace_shape w opts gopts mp repo h1 h2
  refine ⟨?_, ?_, ?_, ?_⟩
  · rw [htr, hprep]
    simp [mkdirCalls, List.filterMap_append] at hmk ⊢
    exact hmk
  · intro f a hmem
    rw [htr, hprep] at hmem
    simp at hmem
    exact hverb f a hmem
  · exact mountCalls_of_reached w opts gopts mp repo h1 h2 hres
  · simp only [errorsCause, osIsNotExist] at hne
    simp [mount, mountBody, bind, pure, Exec.andThen, Exec.ret, emit, call, h1, h2, hstat, hne,
      errorsCause, osIsNotExist]

/-- C4 amended, at a concrete run: stat fails with "permission denied". -/
theorem mount_stat_error_ignored_witness :
    osIsNotExist unreadable (errorsCause unreadable (some (.other "permission denied")))
        = false ∧
    mkdirCalls (mount unreadable shared ⟨1⟩ "/mnt").trace = [] ∧
    mountCalls (mount unreadable shared ⟨1⟩ "/mnt").trace =
      [("/mnt", [MountOption.ReadOnly, MountOption.FSName "restic", MountOption.AllowRoot,
        MountOption.AllowOther])] :=
  ⟨rfl,
   (mount_stat_error_ignored unreadable shared ⟨1⟩ "/mnt" ⟨1⟩ (.other "permission denied")
      rfl rfl rfl rfl).1,
   (mount_stat_error_ignored unreadable shared ⟨1⟩ "/mnt" ⟨1⟩ (.other "permission denied")
      rfl rfl rfl rfl).2.2.1⟩

/-- C5. Whatever the options, `runMount` called with an empty argument list
returns the fatal error "wrong number of parameters" and makes no call at all:
its trace is empty, so there is no repository open or index load, no stat or
mkdir, no Mount call and no cleanup handler registration. -/
theorem runMount_no_args (w : World) (opts : MountOptions) (gopts : GlobalOptions) :
    (runMount w opts gopts []).val = some (Error.Fatal "wrong number of parameters") ∧
    (runMount w opts gopts []).trace = [] :=
  ⟨rfl, rfl⟩

/-- C6. For every mountpoint and every outcome of the host unmount call, the
cleanup handler returns nil, makes exactly one unmount call (on its mountpoint),
and prints a warning if and only if that call returned an error; the warning
then carries that error. -/
theorem cleanup_handler_swallows (w : World) (mountpoint : String) :
    (CleanupHandler.run w ⟨mountpoint⟩).val = none ∧
    unmountCalls (CleanupHandler.run w ⟨mountpoint⟩).trace = [mountpoint] ∧
    (warnings (CleanupHandler.run w ⟨mountpoint⟩).trace ≠ [] ↔ w.Unmount mountpoint ≠ none) ∧
    (∀ e, w.Unmount mountpoint = some e →
      warnings (CleanupHandler.run w ⟨mountpoint⟩).trace =
        [("unable to umount (maybe already umounted?): %v\n", [.err e])]) := by
  rw [cleanup_run]
  cases hu : w.Unmount mountpoint <;> simp [unmountCalls, warnings]

/-- C6, at a concrete run: the unmount fails and the handler still returns nil. -/
theorem cleanup_handler_swallows_witness :
    gone.Unmount "/mnt" = some (.other "not mounted") ∧
    (CleanupHandler.run gone ⟨"/mnt"⟩).val = none ∧
    warnings (CleanupHandler.run gone ⟨"/mnt"⟩).trace =
      [("unable to umount (maybe already umounted?): %v\n", [.err (.other "not mounted")])] :=
  ⟨rfl, (cleanup_handler_swallows gone "/mnt").1,
    (cleanup_handler_swallows gone "/mnt").2.2.2 (.other "not mounted") rfl⟩


/-- C7. Once the repository is open and indexed: if the stat of the mountpoint
reports "does not exist", `mount` prints the "creating" message and then calls
Mkdir on the mountpoint with mode ModeDir|0700 (directory bit plus owner-only
permission bits), this being its only Mkdir call, made before any Mount call,
and it goes on to the Mount call when the Mkdir succeeds; if the stat succeeds,
`mount` makes no Mkdir call and prints no such message. -/
theorem mount_prepares_mountpoint (w : World) (opts : MountOptions) (gopts : GlobalOptions)
    (mp : String) (repo : Repository)
    (h1 : w.OpenRepository gopts = .ok repo) (h2 : w.LoadIndex repo = none) :
    (osIsNotExist w (errorsCause w (w.Stat mp)) = true →
      ∃ post, (mount w opts gopts mp).trace =
          [.debugLog "start mount" [], .OpenRepository gopts, .LoadIndex repo, .Stat mp,
            .Verbosef "Mountpoint %s doesn't exist, creating it\n" [.str mp],
            .Mkdir mp (ModeDir ||| 0o700)] ++ post ∧
        mkdirCalls post = [] ∧
        mkdirCalls (mount w opts gopts mp).trace = [(mp, ModeDir ||| 0o700)] ∧
        (w.Mkdir mp (ModeDir ||| 0o700) = none →
          ∃ options rest, post = .Mount mp options :: rest)) ∧
    (w.Stat mp = none →
      mkdirCalls (mount w opts gopts mp).trace = [] ∧
      ∀ f a, Event.Verbosef f a ∉ (mount w opts gopts mp).trace) ∧
    (ModeDir ||| 0o700) / 2 ^ 31 % 2 = 1 ∧ (ModeDir ||| 0o700) % 0o1000 = 0o700 := by
  obtain ⟨post, htr, hmk, hverb, hmount⟩ := mount_trace_shape w opts gopts mp repo h1 h2
  refine ⟨?_, ?_, by decide, by decide⟩
  · intro hne
    have hprep : prepTrace w mp =
        [.Stat mp, .Verbosef "Mountpoint %s doesn't exist, creating it\n" [.str mp],
          .Mkdir mp (ModeDir ||| 0o700)] := by
      simp [prepTrace, hne]
    refine ⟨post, by rw [htr, hprep]; rfl, hmk, ?_, ?_⟩
    · rw [htr, hprep]
      simp [mkdirCalls, List.filterMap_append] at hmk ⊢
      exact hmk
    · intro hok
      have hres : prepResult w mp = none := by simp [prepResult, hne, hok]
      obtain ⟨rest, hpost, _⟩ := hmount hres
      exact ⟨_, rest, hpost⟩
  · intro hstat
    have hprep : prepTrace w mp = [.Stat mp] := by
      simp [prepTrace, hstat, errorsCause, osIsNotExist]
    refine ⟨?_, ?_⟩
    · rw [htr, hprep]
      simp [mkdirCalls, List.filterMap_append] at hmk ⊢
      exact hmk
    · intro f a hmem
      rw [htr, hprep] at hmem
      simp at hmem
      exact hverb f a hmem

/-- C7, at two concrete runs: an absent mountpoint and a present one. -/
theorem mount_prepares_mountpoint_witness :
    (osIsNotExist absent (errorsCause absent (absent.Stat "/mnt")) = true ∧
      mkdirCalls (mount absent plain ⟨1⟩ "/mnt").trace = [("/mnt", 2147484096)]) ∧
    (calm.Stat "/mnt" = none ∧ mkdirCalls (mount calm plain ⟨1⟩ "/mnt").trace = []) :=
  ⟨⟨rfl, by
      obtain ⟨_, _, _, h, _⟩ :=
        (mount_prepares_mountpoint absent plain ⟨1⟩ "/mnt" ⟨1⟩ rfl rfl).1 rfl
      exact h⟩,
   ⟨rfl, ((mount_prepares_mountpoint calm plain ⟨1⟩ "/mnt" ⟨1⟩ rfl rfl).2.1 rfl).1⟩⟩

/-- C8. For every options value, a root tree that `mount` hands to `fs.Serve`
has exactly one entry, named "snapshots", whose node is the result of
NewSnapshotsDir applied to the opened repository handle, `opts.OwnerRoot`,
`opts.Paths`, `opts.Tags` and `opts.Host`, in this order; and that Serve call
is the only one of the run. -/
theorem mount_root_tree (w : World) (opts : MountOptions) (gopts : GlobalOptions)
    (mp : String) (repo : Repository) (c : Conn) (root : Tree)
    (h1 : w.OpenRepository gopts = .ok repo)
    (h : Event.Serve c root ∈ (mount w opts gopts mp).trace) :
    root.dir =
      [("snapshots", w.NewSnapshotsDir repo opts.OwnerRoot opts.Paths opts.Tags opts.Host)] ∧
    root.dir.length = 1 ∧
    serveCalls (mount w opts gopts mp).trace = [(c, root)] := by
  obtain ⟨repo', h1', h2, h3, h4, hroot⟩ := serve_call_inv w opts gopts mp c root h
  rw [h1] at h1'; cases h1'
  subst hroot
  exact ⟨rfl, rfl, (mount_after_mount w opts gopts mp repo c h1 h2 h3 h4).1⟩

/-- C8, at a concrete run whose builder tells its five arguments apart. -/
theorem mount_root_tree_witness :
    Event.Serve ⟨7⟩ ⟨[("snapshots", ⟨3122⟩)]⟩ ∈ (mount calm shared ⟨1⟩ "/mnt").trace ∧
    serveCalls (mount calm shared ⟨1⟩ "/mnt").trace = [(⟨7⟩, ⟨[("snapshots", ⟨3122⟩)]⟩)] :=
  ⟨by decide,
   (mount_root_tree calm shared ⟨1⟩ "/mnt" ⟨1⟩ ⟨7⟩ ⟨[("snapshots", ⟨3122⟩)]⟩ rfl
      (by decide)).2.2⟩

/-- C9. When `mount` has established the session `c` (the host Mount call
succeeded), it makes exactly one `fs.Serve` call, on `c`; if that call returns
an error, `mount` returns this error without waiting on `c.Ready`; if it returns
nil, `mount` next receives from `c.Ready` and returns exactly `c.MountError`,
hence nil when that recorded error is nil. -/
theorem mount_result_after_serve (w : World) (opts : MountOptions) (gopts : GlobalOptions)
    (mp dir : String) (options : List MountOption) (c : Conn)
    (h : Event.Mount dir options ∈ (mount w opts gopts mp).trace)
    (hok : w.Mount dir options = .ok c) :
    ∃ root, serveCalls (mount w opts gopts mp).trace = [(c, root)] ∧
      (∀ e, w.Serve c root = some e →
        (mount w opts gopts mp).val = some e ∧
        Event.Ready c ∉ (mount w opts gopts mp).trace) ∧
      (w.Serve c root = none →
        (mount w opts gopts mp).val = w.MountError c ∧
        (∃ pre, (mount w opts gopts mp).trace =
          pre ++ [.Serve c root, .Ready c, .debugLog "finish mount" []]) ∧
        (w.MountError c = none → (mount w opts gopts mp).val = none)) := by
  obtain ⟨hdir, hopt, repo, h1, h2, h3⟩ := mount_call_inv w opts gopts mp dir options h
  subst hdir hopt
  obtain ⟨hserve, hfail, hdone⟩ := mount_after_mount w opts gopts dir repo c h1 h2 h3 hok
  refine ⟨rootOf w opts repo, hserve, ?_, ?_⟩
  · intro e he
    rw [hfail e he]
    refine ⟨rfl, ?_⟩
    have := ready_not_mem_upToMount w opts gopts dir repo c
    simp [serving, this]
  · intro he
    rw [hdone he]
    refine ⟨rfl, ⟨upToMount w opts gopts dir repo ++
      [.Printf "Now serving the repository at %s\n" [.str dir],
       .Printf "Don't forget to umount after quitting!\n" [],
       .debugLog "serving mount at %v" [.str dir]], by simp [serving]⟩, fun hm => hm⟩

/-- C9, at two concrete runs: serving fails, and serving ends cleanly. -/
theorem mount_result_after_serve_witness :
    (Event.Mount "/mnt" [MountOption.ReadOnly, MountOption.FSName "restic"] ∈
        (mount broken plain ⟨1⟩ "/mnt").trace ∧
      ∃ root, serveCalls (mount broken plain ⟨1⟩ "/mnt").trace = [(⟨7⟩, root)] ∧
        (∀ e, broken.Serve ⟨7⟩ root = some e →
          (mount broken plain ⟨1⟩ "/mnt").val = some e ∧
          Event.Ready ⟨7⟩ ∉ (mount broken plain ⟨1⟩ "/mnt").trace) ∧
        (broken.Serve ⟨7⟩ root = none →
          (mount broken plain ⟨1⟩ "/mnt").val = broken.MountError ⟨7⟩ ∧
          (∃ pre, (mount broken plain ⟨1⟩ "/mnt").trace =
            pre ++ [.Serve ⟨7⟩ root, .Ready ⟨7⟩, .debugLog "finish mount" []]) ∧
          (broken.MountError ⟨7⟩ = none → (mount broken plain ⟨1⟩ "/mnt").val = none))) ∧
    (mount broken plain ⟨1⟩ "/mnt").val = some (.other "input/output error") ∧
    (mount calm plain ⟨1⟩ "/mnt").val = none :=
  ⟨⟨by decide,
    mount_result_after_serve broken plain ⟨1⟩ "/mnt" "/mnt"
      [MountOption.ReadOnly, MountOption.FSName "restic"] ⟨7⟩ (by decide) rfl⟩,
   by decide, by decide⟩

/-- C10. When a step of `mount` before serving fails with error `e`, `mount`
returns exactly `e` and makes no later call: a failed repository open ends the
run right after the open (no index load, stat, mkdir or Mount call); a failed
index load ends it right after the load (no stat, mkdir or Mount call); a failed
directory creation ends it right after the Mkdir call; a failed host Mount call
ends it right after the Mount call.  In all four cases there is no status line,
no `fs.Serve` call and no receive from `c.Ready`. -/
theorem mount_early_failure (w : World) (opts : MountOptions) (gopts : GlobalOptions)
    (mp : String) (e : Error) :
    (w.OpenRepository gopts = .error e →
      mount w opts gopts mp =
        ⟨[.debugLog "start mount" [], .OpenRepository gopts, .debugLog "finish mount" []],
          some e⟩) ∧
    (∀ repo, w.OpenRepository gopts = .ok repo → w.LoadIndex repo = some e →
      mount w opts gopts mp =
        ⟨[.debugLog "start mount" [], .OpenRepository gopts, .LoadIndex repo,
          .debugLog "finish mount" []], some e⟩) ∧
    (∀ repo, w.OpenRepository gopts = .ok repo → w.LoadIndex repo = none →
      osIsNotExist w (errorsCause w (w.Stat mp)) = true →
      w.Mkdir mp (ModeDir ||| 0o700) = some e →
      mount w opts gopts mp =
        ⟨[.debugLog "start mount" [], .OpenRepository gopts, .LoadIndex repo, .Stat mp,
          .Verbosef "Mountpoint %s doesn't exist, creating it\n" [.str mp],
          .Mkdir mp (ModeDir ||| 0o700), .debugLog "finish mount" []], some e⟩) ∧
    (∀ dir options, Event.Mount dir options ∈ (mount w opts gopts mp).trace →
      w.Mount dir options = .error e →
      (mount w opts gopts mp).val = some e ∧
      (∃ pre, (mount w opts gopts mp).trace =
        pre ++ [.Mount dir options, .debugLog "finish mount" []]) ∧
      (∀ f a, Event.Printf f a ∉ (mount w opts gopts mp).trace) ∧
      (∀ c root, Event.Serve c root ∉ (mount w opts gopts mp).trace) ∧
      (∀ c, Event.Ready c ∉ (mount w opts gopts mp).trace)) := by
  refine ⟨mount_open_fail w opts gopts mp e, fun repo => mount_index_fail w opts gopts mp repo e,
    ?_, ?_⟩
  · intro repo h1 h2 hne hmk
    have hres : prepResult w mp = some e := by simp [prepResult, hne, hmk]
    rw [mount_prep_fail w opts gopts mp repo e h1 h2 hres]
    simp [prepTrace, hne]
  · intro dir options h hfail
    obtain ⟨hdir, hopt, repo, h1, h2, h3⟩ := mount_call_inv w opts gopts mp dir options h
    subst hdir hopt
    rw [mount_mount_fail w opts gopts dir repo e h1 h2 h3 hfail]
    refine ⟨rfl, ⟨[.debugLog "start mount" [], .OpenRepository gopts, .LoadIndex repo] ++
      prepTrace w dir, by simp [upToMount]⟩, ?_, ?_, ?_⟩
    · intro f a hmem
      simp at hmem
      exact printf_not_mem_upToMount w opts gopts dir repo f a hmem
    · intro c root hmem
      simp at hmem
      exact serve_not_mem_upToMount w opts gopts dir repo c root hmem
    · intro c hmem
      simp at hmem
      exact ready_not_mem_upToMount w opts gopts dir repo c hmem

/-- C10, at four concrete runs, one for each step that can fail. -/
theorem mount_early_failure_witness :
    (locked.OpenRepository ⟨1⟩ = .error (.other "wrong password") ∧
      mount locked plain ⟨1⟩ "/mnt" =
        ⟨[.debugLog "start mount" [], .OpenRepository ⟨1⟩, .debugLog "finish mount" []],
          some (.other "wrong password")⟩) ∧
    (unindexed.LoadIndex ⟨1⟩ = some (.other "index damaged") ∧
      mount unindexed plain ⟨1⟩ "/mnt" =
        ⟨[.debugLog "start mount" [], .OpenRepository ⟨1⟩, .LoadIndex ⟨1⟩,
          .debugLog "finish mount" []], some (.other "index damaged")⟩) ∧
    (uncreatable.Mkdir "/mnt" (ModeDir ||| 0o700) = some (.other "read-only file system") ∧
      mount uncreatable plain ⟨1⟩ "/mnt" =
        ⟨[.debugLog "start mount" [], .OpenRepository ⟨1⟩, .LoadIndex ⟨1⟩, .Stat "/mnt",
          .Verbosef "Mountpoint %s doesn't exist, creating it\n" [.str "/mnt"],
          .Mkdir "/mnt" (ModeDir ||| 0o700), .debugLog "finish mount" []],
          some (.other "read-only file system")⟩) ∧
    (Event.Mount "/mnt" [MountOption.ReadOnly, MountOption.FSName "restic"] ∈
        (mount busy plain ⟨1⟩ "/mnt").trace ∧
      (mount busy plain ⟨1⟩ "/mnt").val = some (.other "device or resource busy")) :=
  ⟨⟨rfl, (mount_early_failure locked plain ⟨1⟩ "/mnt" (.other "wrong password")).1 rfl⟩,
   ⟨rfl, (mount_early_failure unindexed plain ⟨1⟩ "/mnt" (.other "index damaged")).2.1
      ⟨1⟩ rfl rfl⟩,
   ⟨rfl, (mount_early_failure uncreatable plain ⟨1⟩ "/mnt"
      (.other "read-only file system")).2.2.1 ⟨1⟩ rfl rfl rfl rfl⟩,
   ⟨by decide, ((mount_early_failure busy plain ⟨1⟩ "/mnt"
      (.other "device or resource busy")).2.2.2 "/mnt"
      [MountOption.ReadOnly, MountOption.FSName "restic"] (by decide) rfl).1⟩⟩

end Restic
